import Mathlib

set_option maxRecDepth 8000

namespace Gate0

/-- Modelled from the spec: `value.rs` is absent from `src/`. A Value is a
closed tagged scalar (§3): Bool, Integer (signed 64-bit; the engine only
compares values for equality, so the payload is an `Int`), String, Null. -/
inductive Value : Type where
  | Bool (b : Bool)
  | Integer (i : Int)
  | String (s : String)
  | Null
deriving DecidableEq

/-- Modelled from the spec: type-strict Value equality (§3). Values of
different variants are never equal, even if one is Null; Null equals only
Null. -/
def valueEq : Value → Value → Bool
  | .Bool a, .Bool b => a == b
  | .Integer a, .Integer b => a == b
  | .String a, .String b => a == b
  | .Null, .Null => true
  | _, _ => false

/-- Modelled from the spec: `target.rs` is absent from `src/`. A Matcher is
Any, Exact(s), or OneOf(list) (§3). -/
inductive Matcher : Type where
  | Any
  | Exact (s : String)
  | OneOf (xs : List String)
deriving DecidableEq

/-- Modelled from the spec: `matches(m, s)` (§4.1). Any matches everything,
Exact compares byte-exactly, OneOf scans its list for an equal element
(empty list matches nothing). -/
def Matcher.matches : Matcher → String → Bool
  | .Any, _ => true
  | .Exact e, s => e == s
  | .OneOf xs, s => xs.any (fun x => x == s)

/-- Modelled from the spec: a Target is a (principal, action, resource)
triple of Matchers (§3). -/
structure Target : Type where
  principal : Matcher
  action : Matcher
  resource : Matcher
deriving DecidableEq

/-- Modelled from the spec: `Target::any()` is the triple (Any, Any, Any). -/
def Target.any : Target :=
  { principal := .Any, action := .Any, resource := .Any }

/-- Modelled from the spec: `types.rs` is absent from `src/`. A Request is
the (principal, action, resource) tuple plus an ordered context of
(key, Value) pairs (§3). -/
structure Request : Type where
  principal : String
  action : String
  resource : String
  context : List (String × Value)
deriving DecidableEq

/-- Modelled from the spec: Target matching is the conjunction of the three
field matchers (§4.2). -/
def Target.matches (t : Target) (req : Request) : Bool :=
  t.principal.matches req.principal
    && t.action.matches req.action
    && t.resource.matches req.resource

/-- Modelled from the spec: `condition.rs` is absent from `src/`. A
Condition is a finite boolean tree with leaves True, False, Equals and
NotEquals and nodes And, Or, Not (§3). -/
inductive Condition : Type where
  | True
  | False
  | Equals (attr : String) (value : Value)
  | NotEquals (attr : String) (value : Value)
  | And (l r : Condition)
  | Or (l r : Condition)
  | Not (c : Condition)
deriving DecidableEq

/-- Modelled from the spec: `error.rs` is absent from `src/`. The error
taxonomy of §7; `fixed_stack.rs` (which is in `src/`) constructs the
`EvalStackOverflow` variant. -/
inductive PolicyError : Type where
  | TooManyRules (count max : Nat)
  | ConditionTooDeep (depth max : Nat)
  | StringTooLong (len max : Nat)
  | InvalidReasonCode
  | AttributeMissing (attr : String)
  | EvalStackOverflow (max : Nat)
  | ContextTooLarge (max : Nat)
deriving DecidableEq

/-- Modelled from the spec: context lookup (§3). Keys are compared by exact
byte equality and the first occurrence wins; a missing key is a signal
distinct from Null. -/
def lookupCtx : List (String × Value) → String → Option Value
  | [], _ => none
  | (k, v) :: rest, attr => if k == attr then some v else lookupCtx rest attr

/-- Modelled from the spec: the condition interpreter's semantics (§4.3) in
the default strict mode. A missing attribute is `AttributeMissing`, never a
boolean; And/Or short-circuit on the left result. The source implements
these semantics with an explicit bounded work stack (whose `FixedStack` is
modelled below from `src/src/fixed_stack.rs`); the spec requires the stack
capacity to accommodate every tree admitted at build time, so on such trees
the machine computes exactly these semantics. -/
def Condition.eval : Condition → List (String × Value) → Except PolicyError Bool
  | .True, _ => .ok true
  | .False, _ => .ok false
  | .Equals attr v, ctx =>
    match lookupCtx ctx attr with
    | none => .error (.AttributeMissing attr)
    | some w => .ok (valueEq w v)
  | .NotEquals attr v, ctx =>
    match lookupCtx ctx attr with
    | none => .error (.AttributeMissing attr)
    | some w => .ok (!(valueEq w v))
  | .And l r, ctx =>
    match l.eval ctx with
    | .error e => .error e
    | .ok Bool.false => .ok false
    | .ok Bool.true => r.eval ctx
  | .Or l r, ctx =>
    match l.eval ctx with
    | .error e => .error e
    | .ok Bool.true => .ok true
    | .ok Bool.false => r.eval ctx
  | .Not c, ctx =>
    match c.eval ctx with
    | .error e => .error e
    | .ok b => .ok (!b)

/-- Modelled from the spec: the two rule effects (§3). -/
inductive Effect : Type where
  | Allow
  | Deny
deriving DecidableEq

/-- Modelled from the spec: reason codes are opaque u32 values and the
reserved sentinel `NO_MATCHING_RULE` equals `u32::MAX - 1` (§3, §6.2). -/
def NO_MATCHING_RULE : Nat := 4294967294

/-- Modelled from the spec: a Rule is (effect, target, optional condition,
reason code) (§3). -/
structure Rule : Type where
  effect : Effect
  target : Target
  condition : Option Condition
  reason : Nat
deriving DecidableEq

/-- Modelled from the spec: a Decision carries the effect and the reason
code of the rule that produced it (§6.1). -/
structure Decision : Type where
  effect : Effect
  reason : Nat
deriving DecidableEq

/-- Modelled from the spec: `stats.rs` is absent from `src/`. The two u16
counters of §4.8, kept as Nat and bumped with a saturating increment. -/
structure EvaluationStats : Type where
  rules_checked : Nat
  condition_evals : Nat
deriving DecidableEq

/-- Modelled from the spec: §4.8 counters saturate at their maximum
representable value (u16) instead of wrapping. -/
def satInc16 (n : Nat) : Nat := if n < 65535 then n + 1 else 65535

/-- Modelled from the spec: a rule matches a request when its Target matches
and its Condition, if present, evaluates to true; a rule with no condition
behaves as one with Condition::True (§3, §4.4). A condition error makes the
whole result an error (strict mode). -/
def ruleMatches (r : Rule) (req : Request) : Except PolicyError Bool :=
  if r.target.matches req then
    match r.condition with
    | none => .ok true
    | some c => c.eval req.context
  else
    .ok false

/-- Whether some rule of the list has effect Deny. -/
def hasDeny (rules : List Rule) : Bool :=
  rules.any (fun r => r.effect == Effect.Deny)

/-- Modelled from the spec: the bounds governing construction and
evaluation (§3): `max_context_entries` bounds a request's context at
evaluation time (§7), the other three are build-time bounds. -/
structure PolicyConfig : Type where
  max_rules : Nat
  max_condition_depth : Nat
  max_context_entries : Nat
  max_string_length : Nat

/-- Modelled from the spec: `policy.rs` is absent from `src/`. The
evaluation loop of §4.7: walk the rules in declared order, count each
checked rule, skip rules whose target fails, evaluate conditions in strict
mode (errors propagate), and resolve conflicts deny-overrides-allow. The
early-exit latitude of §4.7 step 5 is resolved the way scenario S4's stats
require: return at once on a matching Deny, and on a matching Allow when no
Deny rule remains in the tail (the decision is the same either way when
evaluation succeeds); otherwise remember the first matching Allow and keep
scanning. §4.7 itself performs no context-size check; the evaluation-time
`ContextTooLarge` error of §7 is raised at the `evaluate_with_stats`
boundary below, before this loop runs. -/
def evalLoop : List Rule → Request → Option Nat → EvaluationStats →
    Except PolicyError (Decision × EvaluationStats)
  | [], _, firstAllow, st =>
    match firstAllow with
    | some a => .ok ({ effect := .Allow, reason := a }, st)
    | none => .ok ({ effect := .Deny, reason := NO_MATCHING_RULE }, st)
  | r :: rs, req, firstAllow, st =>
    let st1 : EvaluationStats := { st with rules_checked := satInc16 st.rules_checked }
    if r.target.matches req then
      match r.condition with
      | none =>
        match r.effect with
        | .Deny => .ok ({ effect := .Deny, reason := r.reason }, st1)
        | .Allow =>
          let fa := match firstAllow with | none => some r.reason | some a => some a
          if hasDeny rs then evalLoop rs req fa st1
          else .ok ({ effect := .Allow, reason := fa.getD r.reason }, st1)
      | some c =>
        let st2 : EvaluationStats :=
          { st1 with condition_evals := satInc16 st1.condition_evals }
        match c.eval req.context with
        | .error e => .error e
        | .ok Bool.true =>
          match r.effect with
          | .Deny => .ok ({ effect := .Deny, reason := r.reason }, st2)
          | .Allow =>
            let fa := match firstAllow with | none => some r.reason | some a => some a
            if hasDeny rs then evalLoop rs req fa st2
            else .ok ({ effect := .Allow, reason := fa.getD r.reason }, st2)
        | .ok Bool.false => evalLoop rs req firstAllow st2
    else
      evalLoop rs req firstAllow st1

/-- Modelled from the spec: `Policy::evaluate_with_stats` (§4.6, §4.7, §7).
A Policy is its rules plus its config, and §7 makes `ContextTooLarge{max}`
an evaluation-time error surfacing from `evaluate*()`: a request whose
context exceeds the config's `max_context_entries` is refused with
`ContextTooLarge` before the rule loop; otherwise the loop runs from zero
stats and no recorded Allow. -/
def evaluate_with_stats (cfg : PolicyConfig) (rules : List Rule) (req : Request) :
    Except PolicyError (Decision × EvaluationStats) :=
  if cfg.max_context_entries < req.context.length then
    .error (.ContextTooLarge cfg.max_context_entries)
  else
    evalLoop rules req none { rules_checked := 0, condition_evals := 0 }

/-- Modelled from the spec: `Policy::evaluate` (§4.6) is
`evaluate_with_stats` with the stats dropped. -/
def evaluate (cfg : PolicyConfig) (rules : List Rule) (req : Request) :
    Except PolicyError Decision :=
  match evaluate_with_stats cfg rules req with
  | .error e => .error e
  | .ok (d, _) => .ok d

/-- Modelled from the spec: depth of a condition tree; a bare leaf has
depth 1 (§3). -/
def Condition.depth : Condition → Nat
  | .True => 1
  | .False => 1
  | .Equals _ _ => 1
  | .NotEquals _ _ => 1
  | .And l r => 1 + max l.depth r.depth
  | .Or l r => 1 + max l.depth r.depth
  | .Not c => 1 + c.depth

/-- Strings carried by a Value stay within the configured byte bound. -/
def valueStringsOk : Value → Nat → Bool
  | .String s, maxLen => decide (s.utf8ByteSize ≤ maxLen)
  | _, _ => true

/-- Strings carried by a Matcher stay within the configured byte bound. -/
def Matcher.stringsOk : Matcher → Nat → Bool
  | .Any, _ => true
  | .Exact s, maxLen => decide (s.utf8ByteSize ≤ maxLen)
  | .OneOf xs, maxLen => xs.all (fun s => decide (s.utf8ByteSize ≤ maxLen))

/-- Strings carried by a Condition stay within the configured byte bound. -/
def Condition.stringsOk : Condition → Nat → Bool
  | .True, _ => true
  | .False, _ => true
  | .Equals a v, maxLen => decide (a.utf8ByteSize ≤ maxLen) && valueStringsOk v maxLen
  | .NotEquals a v, maxLen => decide (a.utf8ByteSize ≤ maxLen) && valueStringsOk v maxLen
  | .And l r, maxLen => l.stringsOk maxLen && r.stringsOk maxLen
  | .Or l r, maxLen => l.stringsOk maxLen && r.stringsOk maxLen
  | .Not c, maxLen => c.stringsOk maxLen

/-- Modelled from the spec: per-rule validation (§3 invariants 2 and 3 plus
the §4.5 / §6.2 reason-code checks: both u32 sentinels are reserved). -/
def Rule.wf (r : Rule) (cfg : PolicyConfig) : Bool :=
  (match r.condition with
   | none => true
   | some c =>
     decide (c.depth ≤ cfg.max_condition_depth) && c.stringsOk cfg.max_string_length)
  && r.target.principal.stringsOk cfg.max_string_length
  && r.target.action.stringsOk cfg.max_string_length
  && r.target.resource.stringsOk cfg.max_string_length
  && decide (r.reason < 4294967295)
  && decide (r.reason ≠ NO_MATCHING_RULE)

/-- Modelled from the spec: a valid (buildable) Policy is a rule list that
meets the §3 invariants under its config: at most `max_rules` rules and
every rule well-formed. -/
def policyWf (cfg : PolicyConfig) (rules : List Rule) : Bool :=
  decide (rules.length ≤ cfg.max_rules) && rules.all (fun r => r.wf cfg)

/-- The rule of the winning effect whose reason the decision reports: the
earliest rule (declared order) with the given effect that matches the
request without error. -/
def matchPred (req : Request) (eff : Effect) (r : Rule) : Bool :=
  match ruleMatches r req with
  | .ok Bool.true => decide (r.effect = eff)
  | _ => false

/-- Equality of `Except` results is decidable when both payloads are; used
to evaluate concrete runs of the engine. -/
instance {ε α : Type} [DecidableEq ε] [DecidableEq α] : DecidableEq (Except ε α) := fun x y =>
  match x, y with
  | .error a, .error b =>
    if h : a = b then isTrue (by rw [h]) else isFalse (fun hh => h (Except.error.inj hh))
  | .ok a, .ok b =>
    if h : a = b then isTrue (by rw [h]) else isFalse (fun hh => h (Except.ok.inj hh))
  | .error _, .ok _ => isFalse (fun hh => Except.noConfusion hh)
  | .ok _, .error _ => isFalse (fun hh => Except.noConfusion hh)

/-- From `src/src/fixed_stack.rs`: a fixed-capacity stack. The Rust value is
an `N`-slot buffer of possibly-uninitialized cells plus a length whose
initialized prefix `buf[0..len]` holds the elements; the model keeps exactly
that prefix as a list with the top of the stack (`buf[len-1]`) at the
head. -/
structure FixedStack (T : Type) (N : Nat) where
  elems : List T
deriving DecidableEq

/-- From `src/src/fixed_stack.rs` (`FixedStack::new`): the empty stack. -/
def FixedStack.new (T : Type) (N : Nat) : FixedStack T N := { elems := [] }

/-- From `src/src/fixed_stack.rs` (`FixedStack::push`): refuse with
`EvalStackOverflow { max: N }` when `len >= N`, otherwise write the value at
`buf[len]` and increment `len`. The returned pair is (the `Result`, the
stack after the `&mut self` call). -/
def FixedStack.push {T : Type} {N : Nat} (s : FixedStack T N) (v : T) :
    Except PolicyError Unit × FixedStack T N :=
  if N ≤ s.elems.length then (.error (.EvalStackOverflow N), s)
  else (.ok (), { elems := v :: s.elems })

/-- From `src/src/fixed_stack.rs` (`FixedStack::pop`): `None` on an empty
stack, otherwise decrement `len` and read out `buf[len]` (the head of the
model list). -/
def FixedStack.pop {T : Type} {N : Nat} (s : FixedStack T N) :
    Option T × FixedStack T N :=
  match s.elems with
  | [] => (none, s)
  | v :: rest => (some v, { elems := rest })

/-- From `src/src/fixed_stack.rs` (`FixedStack::len`). -/
def FixedStack.len {T : Type} {N : Nat} (s : FixedStack T N) : Nat :=
  s.elems.length

/-- From `src/src/fixed_stack.rs` (`FixedStack::is_empty`). -/
def FixedStack.is_empty {T : Type} {N : Nat} (s : FixedStack T N) : Bool :=
  s.elems.isEmpty

/-- A conservative config under which the concrete policies below are
valid. -/
def cfg0 : PolicyConfig :=
  { max_rules := 16, max_condition_depth := 8, max_context_entries := 16,
    max_string_length := 64 }

/-- The request ("a", "r", "x") with empty context. -/
def reqARX : Request :=
  { principal := "a", action := "r", resource := "x", context := [] }

/-- A Deny rule with target Any and no condition, reason 2. -/
def denyAny2 : Rule :=
  { effect := .Deny, target := Target.any, condition := none, reason := 2 }

/-- An Allow rule whose condition reads the unbound attribute "m": its
condition evaluation errors on an empty context. -/
def allowErr1 : Rule :=
  { effect := .Allow, target := Target.any, condition := some (.Equals "m" .Null),
    reason := 1 }

/-- A policy in which the Deny rule matches but an earlier Allow rule's
condition errors. -/
def c1Rules : List Rule := [allowErr1, denyAny2]

/-- A policy whose only rule fails with a condition error instead of
matching. -/
def c2Rules : List Rule := [allowErr1]

/-- Scenario S4's policy: Allow (Any, OneOf["read","list"], Any) with
reason 2, then Allow Any with reason 1. -/
def s4Rules : List Rule :=
  [ { effect := .Allow,
      target := { principal := .Any, action := .OneOf ["read", "list"], resource := .Any },
      condition := none, reason := 2 },
    { effect := .Allow, target := Target.any, condition := none, reason := 1 } ]

/-- A full two-slot stack of naturals. -/
def stackFull2 : FixedStack Nat 2 := { elems := [5, 4] }

/-- A one-element two-slot stack of naturals. -/
def stackOne2 : FixedStack Nat 2 := { elems := [4] }

/-- An Allow rule with target Any, no condition, reason 3. -/
def allowOk3 : Rule :=
  { effect := .Allow, target := Target.any, condition := none, reason := 3 }

/-- A Deny rule with target Any whose condition reads the unbound
attribute "suspicious". -/
def denySuspicious9 : Rule :=
  { effect := .Deny, target := Target.any,
    condition := some (.Equals "suspicious" (.Bool true)), reason := 9 }

/-- A config that admits no context entries at all
(`max_context_entries = 0`). -/
def cfgNoCtx : PolicyConfig :=
  { max_rules := 16, max_condition_depth := 8, max_context_entries := 0,
    max_string_length := 64 }

/-- The request ("a", "r", "x") whose one-entry context binds only "k", so
"suspicious" is unbound while the context is nonempty. -/
def reqKX : Request :=
  { principal := "a", action := "r", resource := "x", context := [("k", .Null)] }

end Gate0


namespace Gate0

lemma matchPred_spec {req : Request} {eff : Effect} {r : Rule}
    (h : matchPred req eff r = true) :
    r.effect = eff ∧ ruleMatches r req = .ok true := by
  revert h
  unfold matchPred
  cases hm : ruleMatches r req with
  | error e => intro h; simp at h
  | ok b =>
    cases b with
    | false => intro h; simp at h
    | true => intro h; exact ⟨by simpa using h, rfl⟩

lemma matchPred_true {req : Request} {eff : Effect} {r : Rule}
    (h1 : r.effect = eff) (h2 : ruleMatches r req = .ok true) :
    matchPred req eff r = true := by
  simp [matchPred, h2, h1]

lemma matchPred_false_of_no_match {req : Request} {eff : Effect} {r : Rule} {b : Bool}
    (h : ruleMatches r req = .ok b) (hb : b = false) :
    matchPred req eff r = false := by
  subst hb; simp [matchPred, h]

lemma matchPred_false_of_effect {req : Request} {eff : Effect} {r : Rule}
    (h : ¬ r.effect = eff) :
    matchPred req eff r = false := by
  unfold matchPred
  cases hm : ruleMatches r req with
  | error e => rfl
  | ok b => cases b with
    | false => rfl
    | true => simp [h]

/-- If a matching Deny rule exists, a successful evaluation run ends with
the first such rule's Deny decision. -/
lemma evalLoop_deny_reason (req : Request) :
    ∀ (rules : List Rule) (fa : Option Nat) (st st' : EvaluationStats)
      (d : Decision) (r : Rule),
      evalLoop rules req fa st = .ok (d, st') →
      List.find? (matchPred req .Deny) rules = some r →
      d = { effect := .Deny, reason := r.reason } := by
  intro rules
  induction rules with
  | nil => intro fa st st' d r he hf; simp at hf
  | cons r0 rs ih =>
    intro fa st st' d r he hf
    simp only [evalLoop] at he
    by_cases ht : r0.target.matches req = true
    · rw [if_pos ht] at he
      cases hc : r0.condition with
      | none =>
        simp only [hc] at he
        cases heff : r0.effect with
        | Deny =>
          simp only [heff] at he
          have hm : ruleMatches r0 req = .ok true := by simp [ruleMatches, ht, hc]
          rw [List.find?_cons_of_pos _ (matchPred_true heff hm)] at hf
          simp only [Option.some.injEq] at hf
          subst hf
          simp only [Except.ok.injEq, Prod.mk.injEq] at he
          exact he.1.symm
        | Allow =>
          simp only [heff] at he
          have hp : matchPred req .Deny r0 = false :=
            matchPred_false_of_effect (by simp [heff])
          rw [List.find?_cons_of_neg _ (by simp [hp])] at hf
          have hrd : r.effect = .Deny := (matchPred_spec (List.find?_some hf)).1
          have hden : hasDeny rs = true := by
            unfold hasDeny
            rw [List.any_eq_true]
            exact ⟨r, List.mem_of_find?_eq_some hf, by simp [hrd]⟩
          simp only [hden, if_true] at he
          exact ih _ _ _ _ _ he hf
      | some c =>
        simp only [hc] at he
        cases hcv : c.eval req.context with
        | error e => simp [hcv] at he
        | ok b =>
          simp only [hcv] at he
          cases b with
          | true =>
            cases heff : r0.effect with
            | Deny =>
              simp only [heff] at he
              have hm : ruleMatches r0 req = .ok true := by
                simp [ruleMatches, ht, hc, hcv]
              rw [List.find?_cons_of_pos _ (matchPred_true heff hm)] at hf
              simp only [Option.some.injEq] at hf
              subst hf
              simp only [Except.ok.injEq, Prod.mk.injEq] at he
              exact he.1.symm
            | Allow =>
              simp only [heff] at he
              have hp : matchPred req .Deny r0 = false :=
                matchPred_false_of_effect (by simp [heff])
              rw [List.find?_cons_of_neg _ (by simp [hp])] at hf
              have hrd : r.effect = .Deny := (matchPred_spec (List.find?_some hf)).1
              have hden : hasDeny rs = true := by
                unfold hasDeny
                rw [List.any_eq_true]
                exact ⟨r, List.mem_of_find?_eq_some hf, by simp [hrd]⟩
              simp only [hden, if_true] at he
              exact ih _ _ _ _ _ he hf
          | false =>
            have hm : ruleMatches r0 req = .ok false := by
              simp [ruleMatches, ht, hc, hcv]
            rw [List.find?_cons_of_neg _ (by simp [matchPred_false_of_no_match hm rfl])] at hf
            exact ih _ _ _ _ _ he hf
    · rw [if_neg ht] at he
      have hm : ruleMatches r0 req = .ok false := by
        simp [ruleMatches, ht]
      rw [List.find?_cons_of_neg _ (by simp [matchPred_false_of_no_match hm rfl])] at hf
      exact ih _ _ _ _ _ he hf

/-- A successful evaluation run that returns Allow reports the recorded
first Allow when one was already set, and otherwise the earliest matching
Allow rule's reason. -/
lemma evalLoop_allow_reason (req : Request) :
    ∀ (rules : List Rule) (fa : Option Nat) (st st' : EvaluationStats) (d : Decision),
      evalLoop rules req fa st = .ok (d, st') →
      d.effect = .Allow →
      (∀ a, fa = some a → d.reason = a) ∧
      (fa = none → ∀ r, List.find? (matchPred req .Allow) rules = some r →
        d.reason = r.reason) := by
  intro rules
  induction rules with
  | nil =>
    intro fa st st' d he hal
    simp only [evalLoop] at he
    cases fa with
    | some a =>
      simp only [Except.ok.injEq, Prod.mk.injEq] at he
      obtain ⟨hd, -⟩ := he
      subst hd
      refine ⟨fun a' ha' => ?_, fun hn => by simp at hn⟩
      cases ha'
      rfl
    | none =>
      simp only [Except.ok.injEq, Prod.mk.injEq] at he
      obtain ⟨hd, -⟩ := he
      subst hd
      simp at hal
  | cons r0 rs ih =>
    intro fa st st' d he hal
    simp only [evalLoop] at he
    by_cases ht : r0.target.matches req = true
    · rw [if_pos ht] at he
      cases hc : r0.condition with
      | none =>
        simp only [hc] at he
        cases heff : r0.effect with
        | Deny =>
          simp only [heff] at he
          simp only [Except.ok.injEq, Prod.mk.injEq] at he
          obtain ⟨hd, -⟩ := he
          subst hd
          simp at hal
        | Allow =>
          simp only [heff] at he
          have hm : ruleMatches r0 req = .ok true := by simp [ruleMatches, ht, hc]
          have hp : matchPred req .Allow r0 = true := matchPred_true heff hm
          by_cases hden : hasDeny rs = true
          · simp only [hden, if_true] at he
            cases fa with
            | some a =>
              have hra := (ih _ _ _ _ he hal).1 a rfl
              refine ⟨fun a' ha' => ?_, fun hn => by simp at hn⟩
              cases ha'
              exact hra
            | none =>
              have hra := (ih _ _ _ _ he hal).1 r0.reason rfl
              refine ⟨fun a' ha' => by simp at ha', fun _ r hf => ?_⟩
              rw [List.find?_cons_of_pos _ hp] at hf
              cases hf
              exact hra
          · simp only [Bool.not_eq_true] at hden
            simp only [hden, Bool.false_eq_true, if_false] at he
            cases fa with
            | some a =>
              simp only [Option.getD_some] at he
              simp only [Except.ok.injEq, Prod.mk.injEq] at he
              obtain ⟨hd, -⟩ := he
              subst hd
              refine ⟨fun a' ha' => ?_, fun hn => by simp at hn⟩
              cases ha'
              rfl
            | none =>
              simp only [Option.getD_some] at he
              simp only [Except.ok.injEq, Prod.mk.injEq] at he
              obtain ⟨hd, -⟩ := he
              subst hd
              refine ⟨fun a' ha' => by simp at ha', fun _ r hf => ?_⟩
              rw [List.find?_cons_of_pos _ hp] at hf
              cases hf
              rfl
      | some c =>
        simp only [hc] at he
        cases hcv : c.eval req.context with
        | error e => simp [hcv] at he
        | ok b =>
          simp only [hcv] at he
          cases b with
          | true =>
            cases heff : r0.effect with
            | Deny =>
              simp only [heff] at he
              simp only [Except.ok.injEq, Prod.mk.injEq] at he
              obtain ⟨hd, -⟩ := he
              subst hd
              simp at hal
            | Allow =>
              simp only [heff] at he
              have hm : ruleMatches r0 req = .ok true := by
                simp [ruleMatches, ht, hc, hcv]
              have hp : matchPred req .Allow r0 = true := matchPred_true heff hm
              by_cases hden : hasDeny rs = true
              · simp only [hden, if_true] at he
                cases fa with
                | some a =>
                  have hra := (ih _ _ _ _ he hal).1 a rfl
                  refine ⟨fun a' ha' => ?_, fun hn => by simp at hn⟩
                  cases ha'
                  exact hra
                | none =>
                  have hra := (ih _ _ _ _ he hal).1 r0.reason rfl
                  refine ⟨fun a' ha' => by simp at ha', fun _ r hf => ?_⟩
                  rw [List.find?_cons_of_pos _ hp] at hf
                  cases hf
                  exact hra
              · simp only [Bool.not_eq_true] at hden
                simp only [hden, Bool.false_eq_true, if_false] at he
                cases fa with
                | some a =>
                  simp only [Option.getD_some] at he
                  simp only [Except.ok.injEq, Prod.mk.injEq] at he
                  obtain ⟨hd, -⟩ := he
                  subst hd
                  refine ⟨fun a' ha' => ?_, fun hn => by simp at hn⟩
                  cases ha'
                  rfl
                | none =>
                  simp only [Option.getD_some] at he
                  simp only [Except.ok.injEq, Prod.mk.injEq] at he
                  obtain ⟨hd, -⟩ := he
                  subst hd
                  refine ⟨fun a' ha' => by simp at ha', fun _ r hf => ?_⟩
                  rw [List.find?_cons_of_pos _ hp] at hf
                  cases hf
                  rfl
          | false =>
            have hm : ruleMatches r0 req = .ok false := by
              simp [ruleMatches, ht, hc, hcv]
            have hrec := ih _ _ _ _ he hal
            refine ⟨hrec.1, fun hn r hf => ?_⟩
            rw [List.find?_cons_of_neg _
              (by simp [matchPred_false_of_no_match hm rfl])] at hf
            exact hrec.2 hn r hf
    · rw [if_neg ht] at he
      have hm : ruleMatches r0 req = .ok false := by simp [ruleMatches, ht]
      have hrec := ih _ _ _ _ he hal
      refine ⟨hrec.1, fun hn r hf => ?_⟩
      rw [List.find?_cons_of_neg _
        (by simp [matchPred_false_of_no_match hm rfl])] at hf
      exact hrec.2 hn r hf

/-- When every rule fails to match without a condition error, the run falls
through to the default-deny decision. -/
lemma evalLoop_no_match (req : Request) :
    ∀ (rules : List Rule) (st : EvaluationStats),
      (∀ r ∈ rules, ruleMatches r req = .ok false) →
      ∃ st', evalLoop rules req none st
        = .ok ({ effect := .Deny, reason := NO_MATCHING_RULE }, st') := by
  intro rules
  induction rules with
  | nil => intro st _; exact ⟨st, rfl⟩
  | cons r0 rs ih =>
    intro st h
    have h0 : ruleMatches r0 req = .ok false := h r0 (List.mem_cons_self r0 rs)
    have hrest : ∀ r ∈ rs, ruleMatches r req = .ok false :=
      fun r hr => h r (List.mem_cons_of_mem r0 hr)
    simp only [evalLoop]
    by_cases ht : r0.target.matches req = true
    · rw [if_pos ht]
      cases hc : r0.condition with
      | none =>
        simp [ruleMatches, ht, hc] at h0
      | some c =>
        have h0c : c.eval req.context = .ok false := by
          simpa [ruleMatches, ht, hc] using h0
        simp only [h0c]
        exact ih _ hrest
    · rw [if_neg ht]
      exact ih _ hrest

/-- `find?` ignores elements removed by a filter the predicate implies. -/
lemma find?_filter_of_imp (p q : Rule → Bool) :
    ∀ (l : List Rule), (∀ x, p x = true → q x = true) →
      List.find? p (List.filter q l) = List.find? p l := by
  intro l
  induction l with
  | nil => intro _; rfl
  | cons a l ih =>
    intro h
    by_cases hq : q a = true
    · rw [List.filter_cons_of_pos hq]
      by_cases hp : p a = true
      · rw [List.find?_cons_of_pos _ hp, List.find?_cons_of_pos _ hp]
      · rw [List.find?_cons_of_neg _ (by simp [Bool.not_eq_true] at hp; simp [hp]),
          List.find?_cons_of_neg _ (by simp [Bool.not_eq_true] at hp; simp [hp])]
        exact ih h
    · have hp : p a = false := by
        cases hpa : p a with
        | false => rfl
        | true => exact absurd (h a hpa) hq
      rw [List.filter_cons_of_neg (by simp [hq]), List.find?_cons_of_neg _ (by simp [hp])]
      exact ih h

/-- A successful `evaluate` passes the context-size check and comes from a
successful run of the loop. -/
lemma evaluate_ok_elim {cfg : PolicyConfig} {rules : List Rule} {req : Request}
    {d : Decision} (h : evaluate cfg rules req = .ok d) :
    ∃ st', evalLoop rules req none { rules_checked := 0, condition_evals := 0 }
      = .ok (d, st') := by
  revert h
  unfold evaluate evaluate_with_stats
  by_cases hc : cfg.max_context_entries < req.context.length
  · rw [if_pos hc]
    intro h
    simp at h
  · rw [if_neg hc]
    cases hev : evalLoop rules req none { rules_checked := 0, condition_evals := 0 } with
    | error e => intro h; simp at h
    | ok p =>
      intro h
      obtain ⟨d0, st'⟩ := p
      simp only [Except.ok.injEq] at h
      exact ⟨st', by rw [h]⟩

/-- Claim C1, amended: deny dominance for evaluations that return a decision.
If some Deny rule of the policy matches the request, and both the policy and
any extension of it by Allow rules (same Deny rules in the same order)
evaluate to a decision rather than an error, then both decisions are the
same Deny decision. -/
theorem deny_dominance (cfg cfgE : PolicyConfig) (rules rulesE : List Rule)
    (req : Request) (d dE : Decision)
    (_hsub : List.Sublist rules rulesE)
    (hden : List.filter (fun r => r.effect == Effect.Deny) rulesE
      = List.filter (fun r => r.effect == Effect.Deny) rules)
    (hmatch : ∃ r ∈ rules, r.effect = .Deny ∧ ruleMatches r req = .ok true)
    (he : evaluate cfg rules req = .ok d)
    (heE : evaluate cfgE rulesE req = .ok dE) :
    d.effect = .Deny ∧ dE = d := by
  obtain ⟨r1, hmem, hrd, hrm⟩ := hmatch
  have himp : ∀ x : Rule, matchPred req .Deny x = true → (x.effect == Effect.Deny) = true :=
    fun x hx => by simp [(matchPred_spec hx).1]
  have hsome : (List.find? (matchPred req .Deny) rules).isSome :=
    List.find?_isSome.mpr ⟨r1, hmem, matchPred_true hrd hrm⟩
  obtain ⟨r2, hf⟩ := Option.isSome_iff_exists.mp hsome
  obtain ⟨st1, he1⟩ := evaluate_ok_elim he
  obtain ⟨st2, he2⟩ := evaluate_ok_elim heE
  have hd1 : d = { effect := .Deny, reason := r2.reason } :=
    evalLoop_deny_reason req rules none _ _ d r2 he1 hf
  have hfE : List.find? (matchPred req .Deny) rulesE = some r2 := by
    rw [← find?_filter_of_imp _ _ rulesE himp, hden, find?_filter_of_imp _ _ rules himp]
    exact hf
  have hd2 : dE = { effect := .Deny, reason := r2.reason } :=
    evalLoop_deny_reason req rulesE none _ _ dE r2 he2 hfE
  constructor
  · rw [hd1]
  · rw [hd1, hd2]

/-- Claim C1 witness: the concrete policy [Deny Any => 2], extended in front
by Allow Any => 3, still decides Deny with reason 2. -/
theorem deny_dominance_witness :
    ({ effect := .Deny, reason := 2 } : Decision).effect = .Deny
    ∧ ({ effect := .Deny, reason := 2 } : Decision)
      = { effect := .Deny, reason := 2 } :=
  deny_dominance cfg0 cfg0 [denyAny2] [allowOk3, denyAny2] reqARX
    { effect := .Deny, reason := 2 } { effect := .Deny, reason := 2 }
    (List.Sublist.cons allowOk3 (List.Sublist.refl [denyAny2]))
    (by decide)
    ⟨denyAny2, by decide, rfl, rfl⟩
    (by decide) (by decide)

/-- Claim C1 counterexample: in the valid policy [Allow Any where m EQ Null
=> 1, Deny Any => 2] the Deny rule matches the request ("a","r","x") with
empty context, yet evaluate returns the error AttributeMissing "m", not a
Deny decision — refuting the claim as stated. -/
theorem deny_dominance_cex :
    policyWf cfg0 c1Rules = true
    ∧ reqARX.context.length ≤ cfg0.max_context_entries
    ∧ denyAny2 ∈ c1Rules
    ∧ denyAny2.effect = .Deny
    ∧ ruleMatches denyAny2 reqARX = .ok true
    ∧ evaluate cfg0 c1Rules reqARX = .error (.AttributeMissing "m")
    ∧ (∀ dd : Decision, evaluate cfg0 c1Rules reqARX ≠ .ok dd) := by
  refine ⟨by decide, by decide, by decide, rfl, by decide, by decide, ?_⟩
  intro dd h
  rw [show evaluate cfg0 c1Rules reqARX = .error (.AttributeMissing "m") from by decide] at h
  exact Except.noConfusion h

/-- Claim C2, amended: default deny. For every policy and every request
whose context is within the config's max_context_entries bound, if every
rule fails to match without a condition error (its target fails or its
condition evaluates to false) — in particular for the empty policy —
evaluate returns Deny with reason NO_MATCHING_RULE, which equals u32 MAX
minus 1, namely 4294967294. -/
theorem default_deny (cfg : PolicyConfig) (rules : List Rule) (req : Request)
    (hctx : req.context.length ≤ cfg.max_context_entries)
    (h : ∀ r ∈ rules, ruleMatches r req = .ok false) :
    evaluate cfg rules req = .ok { effect := .Deny, reason := NO_MATCHING_RULE }
    ∧ NO_MATCHING_RULE = 4294967294 := by
  obtain ⟨st', hst⟩ := evalLoop_no_match req rules _ h
  refine ⟨?_, rfl⟩
  unfold evaluate evaluate_with_stats
  rw [if_neg (Nat.not_lt.mpr hctx), hst]

/-- Claim C2 witness: the empty policy under a conservative config denies
("a","r","x") with reason NO_MATCHING_RULE = 4294967294. -/
theorem default_deny_witness :
    evaluate cfg0 [] reqARX = .ok { effect := .Deny, reason := NO_MATCHING_RULE }
    ∧ NO_MATCHING_RULE = 4294967294 :=
  default_deny cfg0 [] reqARX (by decide) (by simp)

/-- Claim C2 counterexample: in the valid policy [Allow Any where m EQ Null
=> 1] no rule matches the request ("a","r","x") with empty (in-bounds)
context, yet evaluate returns the error AttributeMissing "m" instead of the
default Deny — refuting the claim as stated. -/
theorem default_deny_cex :
    policyWf cfg0 c2Rules = true
    ∧ reqARX.context.length ≤ cfg0.max_context_entries
    ∧ List.find? (matchPred reqARX .Deny) c2Rules = none
    ∧ List.find? (matchPred reqARX .Allow) c2Rules = none
    ∧ evaluate cfg0 c2Rules reqARX = .error (.AttributeMissing "m")
    ∧ evaluate cfg0 c2Rules reqARX
      ≠ .ok { effect := .Deny, reason := NO_MATCHING_RULE } := by
  refine ⟨by decide, by decide, by decide, by decide, by decide, ?_⟩
  intro h
  rw [show evaluate cfg0 c2Rules reqARX = .error (.AttributeMissing "m") from by decide] at h
  exact Except.noConfusion h

/-- Claim C3: order stability of reasons. Whenever evaluate returns a
decision and an earliest rule (in declared order) of the winning effect
that matches the request exists, the decision's reason code is that rule's
reason code. -/
theorem order_stability (cfg : PolicyConfig) (rules : List Rule) (req : Request)
    (d : Decision) (r : Rule)
    (he : evaluate cfg rules req = .ok d)
    (hf : List.find? (matchPred req d.effect) rules = some r) :
    d.reason = r.reason := by
  obtain ⟨st', hev⟩ := evaluate_ok_elim he
  cases heff : d.effect with
  | Deny =>
    rw [heff] at hf
    have hd := evalLoop_deny_reason req rules none _ _ d r hev hf
    rw [hd]
  | Allow =>
    rw [heff] at hf
    exact (evalLoop_allow_reason req rules none _ _ d hev heff).2 rfl r hf

/-- Claim C3 witness: on the policy [Allow Any => 3] the decision's reason
equals the first matching Allow rule's reason. -/
theorem order_stability_witness :
    ({ effect := .Allow, reason := 3 } : Decision).reason = allowOk3.reason :=
  order_stability cfg0 [allowOk3] reqARX { effect := .Allow, reason := 3 } allowOk3
    (by decide) (by decide)

/-- Claim C4, amended: strict missing-attribute error. Evaluating an Equals
or NotEquals leaf over a context with no binding for the attribute returns
the error AttributeMissing (absence is never treated as inequality), and
when the enclosing rule's target matches and the request's context is
within the config's max_context_entries bound, the error propagates out of
evaluate; on an over-large context the boundary error ContextTooLarge
preempts it. -/
theorem strict_missing_attribute (attr : String) (v : Value)
    (ctx : List (String × Value)) (h : lookupCtx ctx attr = none) :
    Condition.eval (.Equals attr v) ctx = .error (.AttributeMissing attr)
    ∧ Condition.eval (.NotEquals attr v) ctx = .error (.AttributeMissing attr)
    ∧ ∀ (cfg : PolicyConfig) (eff : Effect) (t : Target) (rc : Nat)
        (rest : List Rule) (req : Request),
        req.context = ctx → t.matches req = true →
        req.context.length ≤ cfg.max_context_entries →
        evaluate cfg ({ effect := eff, target := t,
                        condition := some (.Equals attr v), reason := rc } :: rest) req
          = .error (.AttributeMissing attr) := by
  refine ⟨by simp [Condition.eval, h], by simp [Condition.eval, h], ?_⟩
  intro cfg eff t rc rest req hctx htm hbound
  unfold evaluate evaluate_with_stats
  rw [if_neg (Nat.not_lt.mpr hbound)]
  simp [evalLoop, htm, Condition.eval, hctx, h]

/-- Claim C4 witness: the attribute "suspicious" unbound in an empty
context errors both leaves and propagates out of evaluate under a
conservative config. -/
theorem strict_missing_attribute_witness :
    Condition.eval (.Equals "suspicious" (.Bool true)) []
      = .error (.AttributeMissing "suspicious")
    ∧ Condition.eval (.NotEquals "suspicious" (.Bool true)) []
      = .error (.AttributeMissing "suspicious")
    ∧ evaluate cfg0 [denySuspicious9] reqARX
      = .error (.AttributeMissing "suspicious") :=
  have h := strict_missing_attribute "suspicious" (.Bool true) [] rfl
  ⟨h.1, h.2.1, h.2.2 cfg0 .Deny Target.any 9 [] reqARX rfl rfl (by decide)⟩

/-- Claim C4 counterexample: under a config with max_context_entries = 0,
the request whose context binds only "k" leaves "suspicious" unbound and
the Deny rule's target matches, yet evaluate returns ContextTooLarge 0, not
AttributeMissing "suspicious" — so the propagation clause fails for
over-large contexts as originally stated. -/
theorem strict_missing_attribute_cex :
    lookupCtx reqKX.context "suspicious" = none
    ∧ Target.any.matches reqKX = true
    ∧ evaluate cfgNoCtx [denySuspicious9] reqKX = .error (.ContextTooLarge 0)
    ∧ evaluate cfgNoCtx [denySuspicious9] reqKX
      ≠ .error (.AttributeMissing "suspicious") := by
  refine ⟨by decide, by decide, by decide, ?_⟩
  intro h
  rw [show evaluate cfgNoCtx [denySuspicious9] reqKX = .error (.ContextTooLarge 0)
    from by decide] at h
  simp at h

end Gate0


namespace Gate0

/-- Claim C5: Value equality is type-strict — reflexive, symmetric, never
true across variants (Bool vs Integer, String vs Null), Null equals only
Null — and evaluating Equals "x" (Integer 0) against a context binding "x"
to Bool false yields the boolean false, not an error. -/
theorem value_equality_type_strict :
    (∀ v, valueEq v v = true)
    ∧ (∀ v w, valueEq v w = valueEq w v)
    ∧ (∀ b i, valueEq (.Bool b) (.Integer i) = false)
    ∧ (∀ s, valueEq (.String s) .Null = false)
    ∧ (∀ v, valueEq .Null v = true ↔ v = .Null)
    ∧ Condition.eval (.Equals "x" (.Integer 0)) [("x", .Bool false)] = .ok false := by
  refine ⟨?_, ?_, ?_, ?_, ?_, ?_⟩
  · intro v; cases v <;> simp [valueEq]
  · intro v w; cases v <;> cases w <;> simp [valueEq, eq_comm]
  · intro b i; rfl
  · intro s; rfl
  · intro v; cases v <;> simp [valueEq]
  · rfl

/-- Claim C6: matcher laws. Any matches every string; Exact e matches s iff
e = s byte-for-byte; OneOf xs matches s iff some element of xs equals s,
and OneOf [] matches no string. -/
theorem matcher_laws :
    (∀ s, Matcher.matches .Any s = true)
    ∧ (∀ e s, Matcher.matches (.Exact e) s = true ↔ e = s)
    ∧ (∀ xs s, Matcher.matches (.OneOf xs) s = true ↔ ∃ x ∈ xs, x = s)
    ∧ (∀ s, Matcher.matches (.OneOf []) s = false) := by
  refine ⟨fun s => rfl, ?_, ?_, fun s => rfl⟩
  · intro e s; simp [Matcher.matches]
  · intro xs s; simp [Matcher.matches]

/-- Claim C7: scenario S4. On the policy [Allow (Any, OneOf["read","list"],
Any) => 2, Allow Any => 1], evaluate_with_stats returns Allow reason 2 with
rules_checked = 1 on ("u","read","r") and Allow reason 1 with
rules_checked = 2 on ("u","write","r"). -/
theorem first_match_stats :
    evaluate_with_stats cfg0 s4Rules
        { principal := "u", action := "read", resource := "r", context := [] }
      = .ok ({ effect := .Allow, reason := 2 }, { rules_checked := 1, condition_evals := 0 })
    ∧ evaluate_with_stats cfg0 s4Rules
        { principal := "u", action := "write", resource := "r", context := [] }
      = .ok ({ effect := .Allow, reason := 1 }, { rules_checked := 2, condition_evals := 0 }) := by
  exact ⟨by decide, by decide⟩

/-- Claim C8: work-stack overflow is an explicit error. For every
FixedStack of capacity N, push on a stack holding N elements returns
EvalStackOverflow with max = N (and leaves the stack unchanged), while push
on a stack holding fewer than N elements succeeds. -/
theorem push_overflow_explicit (T : Type) (N : Nat) (s : FixedStack T N) (v : T) :
    (s.elems.length = N → s.push v = (.error (.EvalStackOverflow N), s))
    ∧ (s.elems.length < N →
        (s.push v).1 = .ok () ∧ (s.push v).2 = { elems := v :: s.elems }) := by
  constructor
  · intro h
    simp [FixedStack.push, h]
  · intro h
    simp [FixedStack.push, Nat.not_le.mpr h]

/-- Claim C8 witness: a full 2-slot stack refuses a push with
EvalStackOverflow 2; a 1-element 2-slot stack accepts it. -/
theorem push_overflow_explicit_witness :
    stackFull2.push 9 = (.error (.EvalStackOverflow 2), stackFull2)
    ∧ (stackOne2.push 9).1 = .ok () :=
  ⟨(push_overflow_explicit Nat 2 stackFull2 9).1 rfl,
   ((push_overflow_explicit Nat 2 stackOne2 9).2 (by decide)).1⟩

/-- Claim C9: FixedStack is LIFO with a push/pop round-trip. On a stack
holding fewer than N elements, push v succeeds and an immediate pop returns
v and restores the original stack; pop on an empty stack returns none. -/
theorem fixed_stack_lifo (T : Type) (N : Nat) (s : FixedStack T N) (v : T) :
    (s.elems.length < N →
      (s.push v).1 = .ok () ∧ ((s.push v).2).pop = (some v, s))
    ∧ (s.elems = [] → s.pop = (none, s)) := by
  constructor
  · intro h
    have hn : ¬ N ≤ s.elems.length := Nat.not_le.mpr h
    refine ⟨by simp [FixedStack.push, hn], ?_⟩
    simp [FixedStack.push, hn, FixedStack.pop]
  · intro h
    simp [FixedStack.pop, h]

/-- Claim C9 witness: pushing 9 onto a 1-element 2-slot stack and popping
returns 9 and the original stack; popping the empty stack gives none. -/
theorem fixed_stack_lifo_witness :
    (stackOne2.push 9).1 = .ok ()
    ∧ ((stackOne2.push 9).2).pop = (some 9, stackOne2)
    ∧ (FixedStack.new Nat 2).pop = (none, FixedStack.new Nat 2) :=
  ⟨((fixed_stack_lifo Nat 2 stackOne2 9).1 (by decide)).1,
   ((fixed_stack_lifo Nat 2 stackOne2 9).1 (by decide)).2,
   (fixed_stack_lifo Nat 2 (FixedStack.new Nat 2) 0).2 rfl⟩

/-- Claim C10: FixedStack error atomicity and length invariant. Push and
pop preserve length at most N; a failed push and a pop on an empty stack
leave the stack unchanged; a successful push grows the length by exactly 1
and a successful pop shrinks it by exactly 1. -/
theorem fixed_stack_invariants (T : Type) (N : Nat) (s : FixedStack T N) (v : T) :
    (s.elems.length ≤ N →
      (s.push v).2.elems.length ≤ N ∧ (s.pop).2.elems.length ≤ N)
    ∧ (∀ e, (s.push v).1 = .error e → (s.push v).2 = s)
    ∧ ((s.pop).1 = none → (s.pop).2 = s)
    ∧ ((s.push v).1 = .ok () → (s.push v).2.elems.length = s.elems.length + 1)
    ∧ (∀ x, (s.pop).1 = some x → (s.pop).2.elems.length + 1 = s.elems.length) := by
  refine ⟨?_, ?_, ?_, ?_, ?_⟩
  · intro h
    constructor
    · by_cases hN : N ≤ s.elems.length
      · simpa [FixedStack.push, hN] using h
      · simp [FixedStack.push, hN]
        exact Nat.not_le.mp hN
    · cases h2 : s.elems with
      | nil => simp [FixedStack.pop, h2]
      | cons a as =>
        simp [FixedStack.pop, h2]
        rw [h2] at h
        simp at h
        omega
  · intro e he
    by_cases hN : N ≤ s.elems.length
    · simp [FixedStack.push, hN]
    · simp [FixedStack.push, hN] at he
  · intro h
    cases h2 : s.elems with
    | nil => simp [FixedStack.pop, h2]
    | cons a as => simp [FixedStack.pop, h2] at h
  · intro h
    by_cases hN : N ≤ s.elems.length
    · simp [FixedStack.push, hN] at h
    · simp [FixedStack.push, hN]
  · intro x hx
    cases h2 : s.elems with
    | nil => simp [FixedStack.pop, h2] at hx
    | cons a as => simp [FixedStack.pop, h2]

/-- Claim C10 witness: concrete 2-slot stacks exercise the failed-push
frame, the successful-push growth and the successful-pop shrinkage. -/
theorem fixed_stack_invariants_witness :
    (stackFull2.push 9).2.elems.length ≤ 2
    ∧ (stackFull2.push 9).2 = stackFull2
    ∧ (stackOne2.push 9).2.elems.length = stackOne2.elems.length + 1
    ∧ (stackOne2.pop).2.elems.length + 1 = stackOne2.elems.length :=
  ⟨((fixed_stack_invariants Nat 2 stackFull2 9).1 (by decide)).1,
   (fixed_stack_invariants Nat 2 stackFull2 9).2.1 (.EvalStackOverflow 2) rfl,
   (fixed_stack_invariants Nat 2 stackOne2 9).2.2.2.1 rfl,
   (fixed_stack_invariants Nat 2 stackOne2 9).2.2.2.2 4 rfl⟩

end Gate0
